import Mathlib

set_option maxRecDepth 4000

/-!
Verification of the DeepSentine metering reverse proxy (Rust sources:
`src/main.rs`, `src/types.rs`, `src/client.rs`).

Strings are modelled as `List Char` (`Str`).  Rust `f64` arithmetic is
modelled exactly over `ℚ` (the spec's non-goals exclude floating point
stress), `u64`/`usize` counters as `Nat` (the quantities involved stay far
below 2^64, so wrap-around is not modelled).  External collaborators are
parameters: the tiktoken BPE encoder is a function `Str → Nat` giving the
token count of a string, and `serde_json` parsing of an SSE payload line is
a function `Str → Option Json`.  `Char.toLower` (ASCII range) and
`Char.isWhitespace` stand in for Rust's `to_lowercase` / `trim`
(identical on the ASCII model identifiers involved).
-/

namespace Sentinel

abbrev Str := List Char

/-- `strStarts s pat`: `pat` is an initial segment of `s` (Rust `str::starts_with`). -/
def strStarts : Str → Str → Bool
  | _, [] => true
  | [], _ :: _ => false
  | a :: as, b :: bs => a = b && strStarts as bs

/-- `strContains hay needle`: `needle` occurs as a contiguous substring of
`hay` (Rust `str::contains` with a string pattern). -/
def strContains : Str → Str → Bool
  | [], needle => strStarts [] needle
  | c :: cs, needle => strStarts (c :: cs) needle || strContains cs needle

/-- Rust `str::ends_with`. -/
def strEnds (s pat : Str) : Bool := strStarts s.reverse pat.reverse

/-- Rust `str::split(sep)` for a one-character separator: all pieces, empty
pieces preserved. -/
def splitOnChar (sep : Char) : Str → List Str
  | [] => [[]]
  | c :: rest =>
    let r := splitOnChar sep rest
    if c = sep then [] :: r
    else
      match r with
      | [] => [[c]]
      | h :: t => (c :: h) :: t

/-- `model_lower.split('/').last().unwrap_or(&model_lower)` from
`normalize_model_name` (types.rs:376). -/
def lastSeg (s : Str) : Str := (splitOnChar '/' s).getLastD s

/-- Rust `str::replace` for one-character pattern and replacement. -/
def replaceChar (a b : Char) (s : Str) : Str := s.map (fun c => if c = a then b else c)

def isWsp (c : Char) : Bool := c.isWhitespace

/-- Rust `str::trim`: drop leading and trailing whitespace. -/
def trimStr (s : Str) : Str := ((s.dropWhile isWsp).reverse.dropWhile isWsp).reverse

/-- Rust `str::to_lowercase`, modelled on the ASCII range. -/
def strLower (s : Str) : Str := s.map Char.toLower

/-- `normalize_model_name` (types.rs:372-384): lowercase, take the last
`/`-separated segment, replace `@` by `-`, then trim. -/
def normalize_model_name (model : Str) : Str :=
  trimStr (replaceChar '@' '-' (lastSeg (strLower model)))

/-- The normalization pipeline in the order the specification lists the
steps: lowercase, trim whitespace, split on `/`, take the last segment,
replace `@` with `-`.  (The code performs the trim last.) -/
def normalizeSpecOrder (model : Str) : Str :=
  replaceChar '@' '-' (lastSeg (trimStr (strLower model)))

/-! ### JSON values

A shallow model of `serde_json::Value`; numbers are exact rationals. -/

inductive Json where
  | null : Json
  | bool : Bool → Json
  | num : ℚ → Json
  | str : Str → Json
  | arr : List Json → Json
  | obj : List (Str × Json) → Json

def lookupField : List (Str × Json) → Str → Option Json
  | [], _ => none
  | (k, v) :: rest, key => if k = key then some v else lookupField rest key

/-- `Value::get(key)`: `none` on non-objects and missing keys. -/
def getField : Json → Str → Option Json
  | .obj fs, key => lookupField fs key
  | _, _ => none

/-- `Value::as_str`. -/
def asStr : Json → Option Str
  | .str s => some s
  | _ => none

/-- `Value::as_u64`: only non-negative integers (below 2^64). -/
def asU64 : Json → Option Nat
  | .num q => if q.den = 1 ∧ 0 ≤ q.num ∧ q.num < 2 ^ 64 then some q.num.toNat else none
  | _ => none

/-- `Value::as_f64` (any JSON number converts). -/
def asF64 : Json → Option ℚ
  | .num q => some q
  | _ => none

/-! ### Usage (types.rs:18-25) -/

structure Usage where
  prompt_tokens : Option Nat
  completion_tokens : Option Nat
  total_tokens : Option Nat
deriving DecidableEq

def promptKey : Str := "prompt_tokens".data
def inputKey : Str := "input_tokens".data
def completionKey : Str := "completion_tokens".data
def outputKey : Str := "output_tokens".data
def totalKey : Str := "total_tokens".data

/-- Deserialize one optional `u64` field of `Usage`, honouring a serde
alias: absent under both names gives `some none`; present but not a valid
`u64` fails the whole parse. -/
def usageField (fs : List (Str × Json)) (key aliasKey : Str) : Option (Option Nat) :=
  match lookupField fs key with
  | some v => (asU64 v).map some
  | none =>
    match lookupField fs aliasKey with
    | some v => (asU64 v).map some
    | none => some none

/-- `serde_json::from_value::<Usage>`: requires an object; unknown fields
ignored; aliases `input_tokens`/`output_tokens` accepted. -/
def parseUsage : Json → Option Usage
  | .obj fs =>
    match usageField fs promptKey inputKey with
    | none => none
    | some p =>
      match usageField fs completionKey outputKey with
      | none => none
      | some c =>
        match usageField fs totalKey totalKey with
        | none => none
        | some t => some ⟨p, c, t⟩
  | _ => none

/-! ### Prices and cost calculation (types.rs) -/

structure PriceInfo where
  input_price : ℚ
  output_price : ℚ
deriving DecidableEq

/-- types.rs:8 (`true` in the source). -/
def FORCE_CNY_FOR_CHINESE_MODELS : Bool := true

def qwenLit : Str := "qwen".data
def glmLit : Str := "glm".data
def zhipuLit : Str := "zhipu".data
def yiLit : Str := "yi-".data
def deepseekLit : Str := "deepseek".data
def cnyLit : Str := "CNY".data
def usdLit : Str := "USD".data

/-- Exact `HashMap::get` on the price cache (modelled as an association
list; iteration order of the map is the list order). -/
def exactGet (cache : List (Str × PriceInfo)) (key : Str) : Option PriceInfo :=
  (cache.find? (fun kv => kv.1 = key)).map (fun kv => kv.2)

/-- The shared lookup of types.rs:42-54 / 300-315 / 393-408 *before* any
sentinel is applied: exact match, then the first key related to the
normalized model by substring containment (either direction,
case-insensitively). -/
def lookupPriceOpt (cache : List (Str × PriceInfo)) (normalized : Str) : Option PriceInfo :=
  match exactGet cache normalized with
  | some p => some p
  | none =>
    let model_lower := strLower normalized
    match cache.find? (fun kv =>
        let key_lower := strLower kv.1
        strContains key_lower model_lower || strContains model_lower key_lower) with
    | some kv => some kv.2
    | none => none

/-- The fallback price of types.rs:313/406. -/
def sentinelPrice : PriceInfo := ⟨1 / 100000, 1 / 100000⟩

/-- Lookup as done by `calculate_actual_cost` / `calculate_actual_cost_with_tokens`:
a miss falls back to the sentinel price. -/
def lookupWithSentinel (cache : List (Str × PriceInfo)) (normalized : Str) : PriceInfo :=
  (lookupPriceOpt cache normalized).getD sentinelPrice

/-- The model families treated as Chinese vendors (types.rs:322-326 and the
`FORCE_CNY` branch at types.rs:341-345). -/
def isChineseModel (ml : Str) : Bool :=
  strContains ml qwenLit || strContains ml glmLit || strContains ml zhipuLit ||
    strContains ml yiLit || strContains ml deepseekLit

/-- Currency heuristic of `calculate_actual_cost`(types.rs:322-335):
Chinese vendor names (deepseek included) or a large input price mean CNY. -/
def isCnyActual (ml : Str) (price : PriceInfo) : Bool :=
  isChineseModel ml || decide ((1 : ℚ) / 100 < price.input_price)

/-- Currency heuristic of `calculate_real_time_cost` (types.rs:64-80):
here `deepseek` is explicitly USD. -/
def isCnyRealTime (ml : Str) (price : PriceInfo) : Bool :=
  if strContains ml qwenLit || strContains ml glmLit || strContains ml zhipuLit ||
      strContains ml yiLit then true
  else if strContains ml deepseekLit then false
  else decide ((1 : ℚ) / 100 < price.input_price)

/-- The shared body of `calculate_actual_cost` (types.rs:317-361) and
`calculate_actual_cost_with_tokens` (types.rs:410-454), given the
(sentinel-completed) price. -/
def costWithPrice (model : Str) (inTok outTok : ℚ) (price : PriceInfo) : ℚ × Str :=
  let ml := strLower model
  let cost_value := inTok * price.input_price + outTok * price.output_price
  if FORCE_CNY_FOR_CHINESE_MODELS && isChineseModel ml then
    if strContains ml deepseekLit then (cost_value * (7.2 : ℚ), cnyLit)
    else (cost_value, cnyLit)
  else if isCnyActual ml price then (cost_value, cnyLit)
  else (cost_value, usdLit)

/-- `calculate_actual_cost` (types.rs:290-370). -/
def calculate_actual_cost (model : Str) (usage : Usage)
    (cache : List (Str × PriceInfo)) : ℚ × Str :=
  costWithPrice model (usage.prompt_tokens.getD 0 : ℚ) (usage.completion_tokens.getD 0 : ℚ)
    (lookupWithSentinel cache (normalize_model_name model))

/-- `calculate_actual_cost_with_tokens` (types.rs:386-463). -/
def calculate_actual_cost_with_tokens (model : Str) (prompt_tokens completion_tokens : ℚ)
    (cache : List (Str × PriceInfo)) : ℚ × Str :=
  costWithPrice model prompt_tokens completion_tokens
    (lookupWithSentinel cache (normalize_model_name model))

def choicesKey : Str := "choices".data
def deltaKey : Str := "delta".data
def contentKey : Str := "content".data
def usageKey : Str := "usage".data

/-- `chunk["choices"][0]["delta"]["content"].as_str()`, the extraction used
both in `chat_handler` (main.rs:321-323) and in `calculate_real_time_cost`
(types.rs:31-34). -/
def getDeltaContent (j : Json) : Option Str :=
  match getField j choicesKey with
  | some (.arr (c :: _)) =>
    match getField c deltaKey with
    | some d =>
      match getField d contentKey with
      | some v => asStr v
      | none => none
    | none => none
  | _ => none

/-- The `usage` fallback of `calculate_real_time_cost` (types.rs:92-118):
reached when the chunk has no delta content or the price lookup missed. -/
def usageFallback (chunk : Json) (model_id : Str) (cache : List (Str × PriceInfo)) : ℚ × Str :=
  match getField chunk usageKey with
  | none => (0, usdLit)
  | some uv =>
    match uv with
    | .null => (0, usdLit)
    | _ =>
      let pc : Nat × Nat :=
        match parseUsage uv with
        | some u => (u.prompt_tokens.getD 0, u.completion_tokens.getD 0)
        | none => (((getField uv promptKey).bind asU64).getD 0,
                   ((getField uv completionKey).bind asU64).getD 0)
      if 0 < pc.1 ∨ 0 < pc.2 then
        calculate_actual_cost model_id ⟨some pc.1, some pc.2, some (pc.1 + pc.2)⟩ cache
      else (0, usdLit)

/-- `calculate_real_time_cost` (types.rs:29-119); `tok` is the shared BPE
encoder's token count. -/
def calculate_real_time_cost (tok : Str → Nat) (chunk : Json) (model_id : Str)
    (cache : List (Str × PriceInfo)) : ℚ × Str :=
  match getDeltaContent chunk with
  | some content =>
    let token_count := tok content
    let normalized := normalize_model_name model_id
    match lookupPriceOpt cache normalized with
    | some price =>
      let cost_value := (token_count : ℚ) * price.output_price
      (cost_value, if isCnyRealTime (strLower model_id) price then cnyLit else usdLit)
    | none => usageFallback chunk model_id cache
  | none => usageFallback chunk model_id cache

/-! ### SSE chunk parsing (main.rs:303-317) -/

def dataPre : Str := "data: ".data
def doneLit : Str := "[DONE]".data

/-- Strip one trailing carriage return (the `\r` of a `\r\n` ending). -/
def stripOneCr (l : Str) : Str := if l.getLast? = some '\r' then l.dropLast else l

/-- Apply `f` to every element except the last. -/
def mapInit (f : Str → Str) : List Str → List Str
  | [] => []
  | [x] => [x]
  | x :: y :: t => f x :: mapInit f (y :: t)

/-- Rust `str::lines`: split at `\n` or `\r\n`, final line ending optional. -/
def rustLines (s : Str) : List Str :=
  let parts := splitOnChar '\n' s
  if parts.getLast? = some ([] : Str) then (parts.dropLast).map stripOneCr
  else mapInit stripOneCr parts

/-- `line.trim_start_matches("data: ")`: remove the prefix repeatedly. -/
def stripDataAux : Nat → Str → Str
  | 0, s => s
  | fuel + 1, s => if strStarts s dataPre then stripDataAux fuel (s.drop 6) else s

def stripData (s : Str) : Str := stripDataAux s.length s

/-- main.rs:306-317: of all lines of the chunk starting with `data: `, the
FIRST one that is not the `[DONE]` sentinel and parses as JSON (`.next()`
at main.rs:317).  `parse` models `serde_json::from_str::<Value>`. -/
def sseFirstJson (parse : Str → Option Json) (s : Str) : Option Json :=
  (((rustLines s).filter (fun l => strStarts l dataPre)).filterMap (fun l =>
    let j := stripData l
    if j = doneLit then none else parse j)).head?

/-- The per-line contribution, stated for the amended C8: `none` for lines
not starting with `data: `, for the `[DONE]` sentinel and for parse
failures. -/
def lineValue (parse : Str → Option Json) (l : Str) : Option Json :=
  if strStarts l dataPre then
    let j := stripData l
    if j = doneLit then none else parse j
  else none

/-! ### The streaming meter (main.rs:261-512) -/

/-- Per-request configuration captured by the `mapped_stream` closure:
model, a snapshot of the price cache, the budget limit, the shared BPE
encoder (`tok`) and the external JSON parser. -/
structure MeterCfg where
  model : Str
  cache : List (Str × PriceInfo)
  limit : ℚ
  tok : Str → Nat
  parse : Str → Option Json

/-- Mutable state touched by the closure: the per-request atomics/mutexes
(`is_fused`, `completion_tokens`, `token_emit_counter`, `last_emitted_cost`,
`request_cost`) and the process-wide `total_cost` counter in pico-units. -/
structure MeterState where
  fused : Bool
  completionTokens : Nat
  tokenEmitCounter : Nat
  totalPicos : Nat
  lastEmittedCost : ℚ
  requestCostCents : Nat
deriving DecidableEq

/-- Fresh per-request state; `g` is whatever the process-wide `total_cost`
holds when the request starts (in pico-units). -/
def meterInit (g : Nat) : MeterState := ⟨false, 0, 0, g, 0, 0⟩

/-- One upstream chunk: its UTF-8 text and the reading of
`last_emit.elapsed()` in milliseconds (wall time is an external input). -/
structure ChunkInput where
  bytes : Str
  elapsedMs : Nat

/-- Messages broadcast on the billing bus (`ws_tx.send`).  A normal billing
message has no `fused` field, modelled as `fused = false`. -/
inductive Event where
  | billing (model : Str) (cost : ℚ) (currency : Str) (fused : Bool) : Event
  | error (reason : Str) (cost : ℚ) (currency : Str) : Event
deriving DecidableEq

def Event.cost : Event → ℚ
  | .billing _ c _ _ => c
  | .error _ c _ => c

/-- `true` for the fuse billing message (`fused: true`) and for error
messages. -/
def isFuseErr : Event → Bool
  | .billing _ _ _ f => f
  | .error _ _ _ => true

def budgetReasonLit : Str := "budget_exceeded".data

/-- Rust `as u64` on a non-negative f64: truncate toward zero. -/
def f64ToU64 (q : ℚ) : Nat := (q.num / (q.den : Int)).toNat

/-- `total_cost as f64 / 1_000_000_000_000.0`. -/
def totalDisp (p : Nat) : ℚ := (p : ℚ) / 1000000000000

/-- `(estimated_chunk_cost * 1_000_000_000_000.0) as u64` (main.rs:339). -/
def deltaCostPicos (cfg : MeterCfg) (json : Json) : Nat :=
  f64ToU64 ((calculate_real_time_cost cfg.tok json cfg.model cfg.cache).1 * 1000000000000)

/-- The delta-content processing of one parsed SSE object
(main.rs:320-431): token counting, real-time cost, the budget check/fuse,
and the throttled billing emit.  The boolean result is `true` when the
closure returned `Err` (budget fuse). -/
def deltaPart (cfg : MeterCfg) (st : MeterState) (json : Json) (elapsedMs : Nat) :
    MeterState × List Event × Bool :=
  match getDeltaContent json with
  | none => (st, [], false)
  | some content =>
    let token_count := cfg.tok content
    let rc := calculate_real_time_cost cfg.tok json cfg.model cfg.cache
    let total_tokens := st.tokenEmitCounter + token_count
    let newPicos := st.totalPicos + deltaCostPicos cfg json
    let current_total := totalDisp newPicos
    let st1 : MeterState :=
      { st with
        completionTokens := st.completionTokens + token_count,
        tokenEmitCounter := total_tokens,
        totalPicos := newPicos }
    if cfg.limit ≤ current_total then
      ({ st1 with fused := true },
       [Event.billing cfg.model current_total rc.2 true,
        Event.error budgetReasonLit current_total rc.2], true)
    else if 0 < rc.1 then
      if 10 ≤ total_tokens ∨ (1 : ℚ) / 10000 ≤ |current_total - st.lastEmittedCost| ∨
          200 ≤ elapsedMs then
        ({ st1 with lastEmittedCost := current_total, tokenEmitCounter := 0 },
         [Event.billing cfg.model current_total rc.2 false], false)
      else (st1, [], false)
    else (st1, [], false)

/-- The terminal-`usage` processing of one parsed SSE object
(main.rs:433-495): authoritative cost from the vendor's `prompt_tokens`
and the meter's own `completion_tokens` counter, emitted without
throttling when positive. -/
def usagePart (cfg : MeterCfg) (st : MeterState) (json : Json) : MeterState × List Event :=
  match getField json usageKey with
  | none => (st, [])
  | some uv =>
    match parseUsage uv with
    | none => (st, [])
    | some u =>
      let prompt_tokens : ℚ := (u.prompt_tokens.getD 0 : ℚ)
      let real_completion : ℚ := (st.completionTokens : ℚ)
      let ac := calculate_actual_cost_with_tokens cfg.model prompt_tokens real_completion cfg.cache
      if 0 < ac.1 then
        ({ st with requestCostCents := st.requestCostCents + f64ToU64 (ac.1 * 100) },
         [Event.billing cfg.model ac.1 ac.2 false])
      else (st, [])

/-- The whole `mapped_stream` closure for one upstream chunk
(main.rs:295-502).  Result: new state, events sent on the bus, and the
bytes forwarded to the client (`none` models `Err`, which ends the body). -/
def processChunk (cfg : MeterCfg) (st : MeterState) (ch : ChunkInput) :
    MeterState × List Event × Option Str :=
  if st.fused then (st, [], none)
  else
    match sseFirstJson cfg.parse ch.bytes with
    | none => (st, [], some ch.bytes)
    | some json =>
      let d := deltaPart cfg st json ch.elapsedMs
      if d.2.2 then (d.1, d.2.1, none)
      else
        let u := usagePart cfg d.1 json
        (u.1, d.2.1 ++ u.2, some ch.bytes)

/-- Map the closure over a whole upstream stream, collecting the per-chunk
events and forwarded bytes. -/
def runMeter (cfg : MeterCfg) : MeterState → List ChunkInput →
    List (List Event × Option Str) × MeterState
  | st, [] => ([], st)
  | st, ch :: rest =>
    let r := processChunk cfg st ch
    let rr := runMeter cfg r.1 rest
    (r.2 :: rr.1, rr.2)

/-- The budget-breach condition of main.rs:346-350 for a chunk whose first
parsed object is `json`: a delta content is present and the running total
after adding this delta's cost reaches the limit. -/
def deltaTrips (cfg : MeterCfg) (st : MeterState) (json : Json) : Prop :=
  ∃ content, getDeltaContent json = some content ∧
    cfg.limit ≤ totalDisp (st.totalPicos + deltaCostPicos cfg json)

/-- The events a chunk emits from the delta-processing path (throttled
billing and the fuse pair), as opposed to the terminal-usage billing. -/
def chunkDeltaEvents (cfg : MeterCfg) (st : MeterState) (ch : ChunkInput) : List Event :=
  if st.fused then []
  else
    match sseFirstJson cfg.parse ch.bytes with
    | none => []
    | some json => (deltaPart cfg st json ch.elapsedMs).2.1

/-- The costs carried by the delta-path events over a whole stream. -/
def runContentCosts (cfg : MeterCfg) : MeterState → List ChunkInput → List ℚ
  | _, [] => []
  | st, ch :: rest =>
    (chunkDeltaEvents cfg st ch).map Event.cost ++
      runContentCosts cfg (processChunk cfg st ch).1 rest

/-- All `billing.cost` values of a trace, in emission order. -/
def billingCosts (tr : List (List Event × Option Str)) : List ℚ :=
  (tr.map Prod.fst).flatten.filterMap (fun e =>
    match e with
    | .billing _ c _ _ => some c
    | .error _ _ _ => none)

/-! ### Non-streaming billing (main.rs:513-596) -/

/-- The billing tail of the non-streaming branch: given the process-wide
`total_cost` (pico-units), the per-request `request_cost` counter (cents)
and the optional `usage` value of the response JSON, produce the new
counters and the broadcast events; `none` models the HTTP 500 on a `usage`
that fails to deserialize (main.rs:558). -/
def nonStreamBilling (cache : List (Str × PriceInfo)) (model : Str)
    (totalPicos requestCostCents : Nat) (respUsage : Option Json) :
    Option (Nat × Nat × List Event) :=
  match respUsage with
  | none => some (totalPicos, requestCostCents, [])
  | some uv =>
    match parseUsage uv with
    | none => none
    | some u =>
      let simplified := trimStr (strLower model)
      let ac := calculate_actual_cost simplified u cache
      if 0 < ac.1 then
        some (totalPicos, requestCostCents + f64ToU64 (ac.1 * 100),
          [Event.billing model (totalDisp totalPicos) ac.2 false])
      else some (totalPicos, requestCostCents, [])

/-! ### Catalogue sync (client.rs:132-243) -/

inductive PatItem where
  | lit (c : Char) : PatItem
  | digit : PatItem
deriving DecidableEq

def itemMatch : PatItem → Char → Bool
  | .lit a, c => a = c
  | .digit, c => c.isDigit

/-- The pattern matches at the very start of the string. -/
def patMatchAt : List PatItem → Str → Bool
  | [], _ => true
  | _ :: _, [] => false
  | i :: is, c :: cs => itemMatch i c && patMatchAt is cs

/-- `Regex::is_match`: the pattern occurs somewhere in the string. -/
def patFound (p : List PatItem) : Str → Bool
  | [] => patMatchAt p []
  | c :: cs => patMatchAt p (c :: cs) || patFound p cs

def lits (s : Str) : List PatItem := s.map PatItem.lit
def digs (n : Nat) : List PatItem := List.replicate n PatItem.digit

/-- The dated-variant regexes of client.rs:188-199, compiled to literal
runs and `\d` repetitions. -/
def date_patterns : List (List PatItem) :=
  [lits "-20".data ++ digs 6,
   lits "-20".data ++ digs 8,
   lits "-250".data ++ digs 1,
   lits "-23".data ++ digs 2,
   lits "-24".data ++ digs 2,
   lits "-25".data ++ digs 2,
   lits "@20".data ++ digs 6,
   lits "@20".data ++ digs 8,
   lits "-preview-".data ++ digs 2 ++ lits "-".data ++ digs 2,
   lits "-".data ++ digs 4 ++ lits "-".data ++ digs 2 ++ lits "-".data ++ digs 2]

/-- client.rs:173-179. -/
def suffix_patterns : List Str :=
  ["instruct".data, "chat".data, "-latest".data, "-v1:0".data, ":0".data]

structure PriceEntry where
  input_price : ℚ
  output_price : ℚ
  vendor : Str
deriving DecidableEq

def litellmAutoLit : Str := "litellm_auto".data
def inCostKey : Str := "input_cost_per_token".data
def outCostKey : Str := "output_cost_per_token".data

/-- The per-entry body of `sync_litellm_prices` (client.rs:157-238):
`some (key, entry)` when the entry is written, `none` when it is skipped. -/
def processEntry (protectedModels : List Str) (model_id : Str) (info : Json) :
    Option (Str × PriceEntry) :=
  let input_per_token := ((getField info inCostKey).bind asF64).getD 0
  let output_per_token := ((getField info outCostKey).bind asF64).getD 0
  if input_per_token = 0 ∧ output_per_token = 0 then none
  else if suffix_patterns.any (fun suf => strEnds model_id suf) then none
  else if date_patterns.any (fun p => patFound p model_id) then none
  else
    let clean_name := normalize_model_name model_id
    if protectedModels.contains clean_name then none
    else some (clean_name, ⟨input_per_token, output_per_token, litellmAutoLit⟩)

/-- One sync cycle over a fetched catalogue, as the list of writes to the
price store in order. -/
def sync_litellm_prices (protectedModels : List Str) (models : List (Str × Json)) :
    List (Str × PriceEntry) :=
  models.filterMap (fun mi => processEntry protectedModels mi.1 mi.2)

/-- The raw price-table cost of a usage, `cost_value` of types.rs:338-339:
tokens priced by the (sentinel-completed) cache entry, before any currency
conversion. -/
def tableCost (model : Str) (inTok outTok : ℚ) (cache : List (Str × PriceInfo)) : ℚ :=
  let price := lookupWithSentinel cache (normalize_model_name model)
  inTok * price.input_price + outTok * price.output_price

/-! ### Concrete instances used by witnesses and counterexamples -/

/-- A stand-in tokenizer: one token per character. -/
def tokLen : Str → Nat := fun s => s.length

/-- `{"choices":[{"delta":{"content":"hi"}}]}`. -/
def jsonHi : Json :=
  .obj [(choicesKey, .arr [.obj [(deltaKey, .obj [(contentKey, .str "hi".data)])]])]

/-- `{"choices":[{"delta":{"content":"hello"}}]}`. -/
def jsonHello : Json :=
  .obj [(choicesKey, .arr [.obj [(deltaKey, .obj [(contentKey, .str "hello".data)])]])]

/-- `{"choices":[{"delta":{"content":"abcde"}}]}`. -/
def jsonAbcde : Json :=
  .obj [(choicesKey, .arr [.obj [(deltaKey, .obj [(contentKey, .str "abcde".data)])]])]

/-- `{"usage":{"prompt_tokens":1}}` — a terminal chunk. -/
def jsonUsage1 : Json := .obj [(usageKey, .obj [(promptKey, .num 1)])]

/-- `{"prompt_tokens":0,"completion_tokens":0}`. -/
def usageObj0 : Json := .obj [(promptKey, .num 0), (completionKey, .num 0)]

/-- `{"usage":{"prompt_tokens":0,"completion_tokens":0}}`. -/
def jsonUsage0 : Json := .obj [(usageKey, usageObj0)]

/-- `{"input_tokens":10,"output_tokens":7}` — vendor usage via serde
aliases, with a completion count that differs from the meter's. -/
def usageObjAlias : Json := .obj [(inputKey, .num 10), (outputKey, .num 7)]

/-- A terminal chunk carrying `usageObjAlias`. -/
def jsonUsageAlias : Json := .obj [(usageKey, usageObjAlias)]

/-- Payload token standing for a serialized delta object (the JSON parser
is the abstract parameter `parse`; these parsers map payload tokens to the
`Json` values serde would produce). -/
def c1Parse : Str → Option Json := fun s => if s = "chunkA".data then some jsonAbcde else none

def c1Cfg : MeterCfg := ⟨"m".data, [("m".data, ⟨1, 1⟩)], 1, tokLen, c1Parse⟩

def c1Ch : ChunkInput := ⟨"data: chunkA\n".data, 0⟩

def c2Parse : Str → Option Json := fun s =>
  if s = "chunkA".data then some jsonAbcde
  else if s = "chunkU".data then some jsonUsage1 else none

def c2Cfg : MeterCfg := ⟨"m".data, [("m".data, ⟨1 / 1000, 1 / 1000⟩)], 1000, tokLen, c2Parse⟩

def c2ChA : ChunkInput := ⟨"data: chunkA\n".data, 0⟩

def c2ChU : ChunkInput := ⟨"data: chunkU\n".data, 0⟩

/-- The throttled billing event of the first chunk of the C2 run. -/
def c2Event : Event := Event.billing "m".data ((201 : ℚ) / 200) usdLit false

def c3Parse : Str → Option Json := fun s => if s = "chunkZ".data then some jsonUsage0 else none

def c3Cfg : MeterCfg := ⟨"m".data, [("m".data, ⟨1 / 1000, 1 / 1000⟩)], 1000, tokLen, c3Parse⟩

def c3Ch : ChunkInput := ⟨"data: chunkZ\n".data, 0⟩

def c3wParse : Str → Option Json := fun s => if s = "chunkW".data then some jsonUsageAlias else none

def c3wCfg : MeterCfg := ⟨"m".data, [("m".data, ⟨1 / 1000, 1 / 1000⟩)], 1000, tokLen, c3wParse⟩

def c3wCh : ChunkInput := ⟨"data: chunkW\n".data, 0⟩

/-- A mid-stream state in which the meter has already counted 5 completion
tokens. -/
def c3wState : MeterState := ⟨false, 5, 0, 0, 0, 0⟩

def c8Parse : Str → Option Json := fun s =>
  if s = "chunkA".data then some jsonHi
  else if s = "chunkB".data then some jsonHello else none

def c8Cfg : MeterCfg := ⟨"m".data, [("m".data, ⟨1 / 1000, 1 / 1000⟩)], 1000, tokLen, c8Parse⟩

/-- A single upstream chunk carrying TWO `data: ` lines. -/
def c8Ch : ChunkInput := ⟨"data: chunkA\ndata: chunkB\n\n".data, 0⟩

def dsChatStr : Str := "deepseek-chat".data

def c4Cache : List (Str × PriceInfo) := [(dsChatStr, ⟨1 / 1000000, 2 / 1000000⟩)]

def qwenPlusStr : Str := "qwen-plus".data

def c4CacheQwen : List (Str × PriceInfo) := [(qwenPlusStr, ⟨1 / 1000000, 2 / 1000000⟩)]

def dsV3Str : Str := "deepseek-v3".data

def c5Cache : List (Str × PriceInfo) := [(dsV3Str, ⟨1 / 1000000, 2 / 1000000⟩)]

def c5Usage : Usage := ⟨some 100, some 50, some 150⟩

/-- `{"input_cost_per_token":1e-6,"output_cost_per_token":2e-6}`. -/
def infoNZ : Json := .obj [(inCostKey, .num (1 / 1000000)), (outCostKey, .num (2 / 1000000))]

def gpt4oStr : Str := "gpt-4o".data

def c10Cache : List (Str × PriceInfo) := [("m".data, ⟨1 / 1000, 1 / 1000⟩)]

/-- `{"prompt_tokens":10,"completion_tokens":5}`. -/
def c10UsageJson : Json := .obj [(promptKey, .num 10), (completionKey, .num 5)]

/-! ## Helper lemmas: characters and normalization -/

theorem char_toNat_ofNat_valid (n : Nat) (h : n.isValidChar) : (Char.ofNat n).toNat = n := by
  rw [Char.ofNat, dif_pos h]
  rfl

theorem toLower_idem (c : Char) : (Char.toLower c).toLower = Char.toLower c := by
  by_cases h : c.toNat ≥ 65 ∧ c.toNat ≤ 90
  · have h1 : Char.toLower c = Char.ofNat (c.toNat + 32) := by
      unfold Char.toLower
      exact if_pos h
    have hv : (c.toNat + 32).isValidChar := Or.inl (by omega)
    have ht : (Char.ofNat (c.toNat + 32)).toNat = c.toNat + 32 := char_toNat_ofNat_valid _ hv
    rw [h1]
    unfold Char.toLower
    rw [ht, if_neg (by omega)]
  · have h1 : Char.toLower c = c := by
      unfold Char.toLower
      exact if_neg h
    rw [h1]
    exact h1

theorem mem_strLower_fixed {c : Char} {s : Str} (h : c ∈ strLower s) :
    Char.toLower c = c := by
  rcases List.mem_map.1 h with ⟨d, _, hd⟩
  rw [← hd]
  exact toLower_idem d

theorem strLower_of_fixed {s : Str} (h : ∀ c ∈ s, Char.toLower c = c) : strLower s = s := by
  unfold strLower
  rw [List.map_congr_left h]
  simp

theorem splitOnChar_ne_nil (sep : Char) (s : Str) : splitOnChar sep s ≠ [] := by
  induction s with
  | nil => simp [splitOnChar]
  | cons c rest ih =>
    simp only [splitOnChar]
    by_cases h : c = sep
    · simp [h]
    · rw [if_neg h]
      rcases hr : splitOnChar sep rest with _ | ⟨hd, tl⟩
      · simp
      · simp

theorem mem_splitOnChar {sep : Char} {s part : Str} (hp : part ∈ splitOnChar sep s) :
    ∀ c ∈ part, c ∈ s := by
  induction s generalizing part with
  | nil =>
    simp only [splitOnChar, List.mem_singleton] at hp
    subst hp
    intro c hc
    exact absurd hc (List.not_mem_nil c)
  | cons d rest ih =>
    simp only [splitOnChar] at hp
    by_cases h : d = sep
    · rw [if_pos h] at hp
      rcases List.mem_cons.1 hp with h1 | h1
      · subst h1
        intro c hc
        exact absurd hc (List.not_mem_nil c)
      · intro c hc
        exact List.mem_cons_of_mem d (ih h1 c hc)
    · rw [if_neg h] at hp
      rcases hr : splitOnChar sep rest with _ | ⟨hd, tl⟩
      · exact absurd hr (splitOnChar_ne_nil sep rest)
      · rw [hr] at hp
        rcases List.mem_cons.1 hp with h1 | h1
        · subst h1
          intro c hc
          rcases List.mem_cons.1 hc with h2 | h2
          · subst h2
            exact List.mem_cons_self c rest
          · have : hd ∈ splitOnChar sep rest := by
              rw [hr]; exact List.mem_cons_self hd tl
            exact List.mem_cons_of_mem d (ih this c h2)
        · have : part ∈ splitOnChar sep rest := by
            rw [hr]; exact List.mem_cons_of_mem hd h1
          intro c hc
          exact List.mem_cons_of_mem d (ih this c hc)

theorem sep_not_mem_splitOnChar {sep : Char} {s part : Str}
    (hp : part ∈ splitOnChar sep s) : sep ∉ part := by
  induction s generalizing part with
  | nil =>
    simp only [splitOnChar, List.mem_singleton] at hp
    subst hp
    exact List.not_mem_nil sep
  | cons d rest ih =>
    simp only [splitOnChar] at hp
    by_cases h : d = sep
    · rw [if_pos h] at hp
      rcases List.mem_cons.1 hp with h1 | h1
      · subst h1
        exact List.not_mem_nil sep
      · exact ih h1
    · rw [if_neg h] at hp
      rcases hr : splitOnChar sep rest with _ | ⟨hd, tl⟩
      · exact absurd hr (splitOnChar_ne_nil sep rest)
      · rw [hr] at hp
        rcases List.mem_cons.1 hp with h1 | h1
        · subst h1
          intro hc
          rcases List.mem_cons.1 hc with h2 | h2
          · exact h h2.symm
          · have : hd ∈ splitOnChar sep rest := by
              rw [hr]; exact List.mem_cons_self hd tl
            exact ih this h2
        · have : part ∈ splitOnChar sep rest := by
            rw [hr]; exact List.mem_cons_of_mem hd h1
          exact ih this

theorem splitOnChar_of_not_mem {sep : Char} {s : Str} (h : sep ∉ s) :
    splitOnChar sep s = [s] := by
  induction s with
  | nil => rfl
  | cons c rest ih =>
    simp only [splitOnChar]
    have hc : ¬c = sep := fun hc => h (hc ▸ List.mem_cons_self c rest)
    rw [if_neg hc, ih (fun hm => h (List.mem_cons_of_mem c hm))]

theorem getLastD_mem {α : Type} (l : List α) (d : α) (h : l ≠ []) : l.getLastD d ∈ l := by
  induction l generalizing d with
  | nil => exact absurd rfl h
  | cons a t ih =>
    rcases ht : t with _ | ⟨b, t2⟩
    · simp [List.getLastD]
    · rw [List.getLastD_cons]
      subst ht
      exact List.mem_cons_of_mem a (ih a (by simp))

theorem lastSeg_mem_split (s : Str) : lastSeg s ∈ splitOnChar '/' s :=
  getLastD_mem _ s (splitOnChar_ne_nil '/' s)

theorem lastSeg_no_sep (s : Str) : '/' ∉ lastSeg s :=
  sep_not_mem_splitOnChar (lastSeg_mem_split s)

theorem mem_lastSeg {c : Char} {s : Str} (h : c ∈ lastSeg s) : c ∈ s :=
  mem_splitOnChar (lastSeg_mem_split s) c h

theorem lastSeg_of_no_sep {s : Str} (h : '/' ∉ s) : lastSeg s = s := by
  unfold lastSeg
  rw [splitOnChar_of_not_mem h]
  rfl

theorem mem_replaceChar {a b c : Char} {s : Str} (h : c ∈ replaceChar a b s) :
    c = b ∨ c ∈ s := by
  rcases List.mem_map.1 h with ⟨d, hd, he⟩
  by_cases hda : d = a
  · rw [hda, if_pos rfl] at he
    exact Or.inl he.symm
  · rw [if_neg hda] at he
    exact Or.inr (he ▸ hd)

theorem ne_of_mem_replaceChar {a b c : Char} {s : Str} (hab : a ≠ b)
    (h : c ∈ replaceChar a b s) : c ≠ a := by
  rcases List.mem_map.1 h with ⟨d, _, he⟩
  by_cases hda : d = a
  · rw [hda, if_pos rfl] at he
    rw [← he]
    exact fun hba => hab hba.symm
  · rw [if_neg hda] at he
    rw [← he]
    exact hda

theorem replaceChar_of_not_mem {a b : Char} {s : Str} (h : a ∉ s) :
    replaceChar a b s = s := by
  unfold replaceChar
  rw [List.map_congr_left (fun d hd => if_neg (fun hda : d = a => h (hda ▸ hd)))]
  simp

theorem dropWhile_dropWhile {α : Type} (p : α → Bool) (l : List α) :
    (l.dropWhile p).dropWhile p = l.dropWhile p := by
  induction l with
  | nil => rfl
  | cons c t ih =>
    by_cases h : p c
    · simp [List.dropWhile_cons, h, ih]
    · simp [List.dropWhile_cons, h]

theorem dropWhile_suffix_self {α : Type} (p : α → Bool) (l : List α) :
    ∃ pre, l = pre ++ l.dropWhile p := by
  induction l with
  | nil => exact ⟨[], rfl⟩
  | cons c t ih =>
    by_cases h : p c
    · rcases ih with ⟨pre, hpre⟩
      refine ⟨c :: pre, ?_⟩
      simp [List.dropWhile_cons, h]
      exact hpre
    · exact ⟨[], by simp [List.dropWhile_cons, h]⟩

theorem rtrimStr_prefix (l : Str) : ∃ post, l = (l.reverse.dropWhile isWsp).reverse ++ post := by
  rcases dropWhile_suffix_self isWsp l.reverse with ⟨pre, hpre⟩
  refine ⟨pre.reverse, ?_⟩
  have := congrArg List.reverse hpre
  rw [List.reverse_reverse, List.reverse_append] at this
  exact this

theorem head_false_of_dropWhile_fix {p : Char → Bool} {c : Char} {cs : Str}
    (h : (c :: cs).dropWhile p = c :: cs) : p c = false := by
  by_cases hp : p c
  · rw [List.dropWhile_cons, if_pos hp] at h
    have h1 : (cs.dropWhile p).length ≤ cs.length := (List.dropWhile_sublist p).length_le
    have h2 := congrArg List.length h
    simp at h2
    omega
  · exact Bool.of_not_eq_true hp

theorem ltrim_of_rtrim_fix {t : Str} (ht : t.dropWhile isWsp = t) :
    ((t.reverse.dropWhile isWsp).reverse).dropWhile isWsp = (t.reverse.dropWhile isWsp).reverse := by
  rcases hr : (t.reverse.dropWhile isWsp).reverse with _ | ⟨d, ds⟩
  · rfl
  · rcases rtrimStr_prefix t with ⟨post, hpost⟩
    rw [hr] at hpost
    rcases t with _ | ⟨c, cs⟩
    · simp at hpost
    · have hc : d = c := by
        have := hpost
        simp only [List.cons_append] at this
        exact (List.cons.injEq _ _ _ _ ▸ this).1.symm
      have hpc : isWsp c = false := head_false_of_dropWhile_fix ht
      rw [List.dropWhile_cons, hc, hpc]
      simp

theorem trimStr_idem (s : Str) : trimStr (trimStr s) = trimStr s := by
  unfold trimStr
  have hfix : ((s.dropWhile isWsp).reverse.dropWhile isWsp).reverse.dropWhile isWsp =
      ((s.dropWhile isWsp).reverse.dropWhile isWsp).reverse :=
    ltrim_of_rtrim_fix (dropWhile_dropWhile isWsp s)
  rw [hfix, List.reverse_reverse, dropWhile_dropWhile]

theorem mem_trimStr {c : Char} {s : Str} (h : c ∈ trimStr s) : c ∈ s := by
  unfold trimStr at h
  rw [List.mem_reverse] at h
  have h1 := (List.dropWhile_sublist isWsp (l := (s.dropWhile isWsp).reverse)).subset h
  rw [List.mem_reverse] at h1
  exact (List.dropWhile_sublist isWsp (l := s)).subset h1

theorem normalize_fixes_lower {s : Str} :
    ∀ c ∈ normalize_model_name s, Char.toLower c = c := by
  intro c hc
  have h1 : c ∈ replaceChar '@' '-' (lastSeg (strLower s)) := mem_trimStr hc
  rcases mem_replaceChar h1 with h2 | h2
  · subst h2
    decide
  · exact mem_strLower_fixed (mem_lastSeg h2)

theorem normalize_no_slash (s : Str) : '/' ∉ normalize_model_name s := by
  intro hc
  have h1 : ('/' : Char) ∈ replaceChar '@' '-' (lastSeg (strLower s)) := mem_trimStr hc
  rcases mem_replaceChar h1 with h2 | h2
  · exact absurd h2 (by decide)
  · exact lastSeg_no_sep _ h2

theorem normalize_no_at (s : Str) : '@' ∉ normalize_model_name s := by
  intro hc
  have h1 : ('@' : Char) ∈ replaceChar '@' '-' (lastSeg (strLower s)) := mem_trimStr hc
  exact ne_of_mem_replaceChar (by decide) h1 rfl

/-- C9 (amended): `normalize_model_name` is idempotent —
`normalize (normalize x) = normalize x` for every string — and implements
lowercase, split on `/`, take the last segment, replace `@` with `-`, and
then trim whitespace (the trim is applied last, after the split, not
before it); in particular `normalize "openai/gpt-4o@20240501" =
"gpt-4o-20240501"`. -/
theorem c9_normalize_idempotent :
    (∀ s : Str, normalize_model_name (normalize_model_name s) = normalize_model_name s) ∧
      normalize_model_name "openai/gpt-4o@20240501".data = "gpt-4o-20240501".data := by
  constructor
  · intro s
    have h1 : strLower (normalize_model_name s) = normalize_model_name s :=
      strLower_of_fixed normalize_fixes_lower
    have h2 : lastSeg (normalize_model_name s) = normalize_model_name s :=
      lastSeg_of_no_sep (normalize_no_slash s)
    have h3 : replaceChar '@' '-' (normalize_model_name s) = normalize_model_name s :=
      replaceChar_of_not_mem (normalize_no_at s)
    have h4 : trimStr (normalize_model_name s) = normalize_model_name s :=
      trimStr_idem (replaceChar '@' '-' (lastSeg (strLower s)))
    calc normalize_model_name (normalize_model_name s)
        = trimStr (replaceChar '@' '-' (lastSeg (strLower (normalize_model_name s)))) := rfl
      _ = trimStr (replaceChar '@' '-' (lastSeg (normalize_model_name s))) := by rw [h1]
      _ = trimStr (replaceChar '@' '-' (normalize_model_name s)) := by rw [h2]
      _ = trimStr (normalize_model_name s) := by rw [h3]
      _ = normalize_model_name s := h4
  · decide

/-- C9 counterexample: the claim states the operations in the order
lowercase, trim, split, last segment, replace; on `"a/ b"` that pipeline
yields `" b"`, while `normalize_model_name` (which trims last) yields
`"b"`, so the code does not implement the claimed operation order. -/
theorem c9_counterexample :
    normalize_model_name "a/ b".data = "b".data ∧
      normalizeSpecOrder "a/ b".data = " b".data ∧
      normalize_model_name "a/ b".data ≠ normalizeSpecOrder "a/ b".data :=
  ⟨by decide, by decide, by decide⟩

/-! ## Helper lemmas: the streaming meter -/

theorem processChunk_fused {cfg : MeterCfg} {st : MeterState} (ch : ChunkInput)
    (h : st.fused = true) : processChunk cfg st ch = (st, [], none) := by
  unfold processChunk
  rw [if_pos h]

theorem runMeter_cons (cfg : MeterCfg) (st : MeterState) (ch : ChunkInput)
    (rest : List ChunkInput) :
    runMeter cfg st (ch :: rest) =
      ((processChunk cfg st ch).2 :: (runMeter cfg (processChunk cfg st ch).1 rest).1,
       (runMeter cfg (processChunk cfg st ch).1 rest).2) := rfl

theorem runMeter_fused {cfg : MeterCfg} {st : MeterState} (chs : List ChunkInput)
    (h : st.fused = true) :
    runMeter cfg st chs = (chs.map (fun _ => ([], none)), st) := by
  induction chs with
  | nil => rfl
  | cons ch rest ih =>
    rw [runMeter_cons, processChunk_fused ch h]
    simp only [ih]
    rfl

theorem runMeter_append (cfg : MeterCfg) (l1 l2 : List ChunkInput) :
    ∀ st : MeterState, runMeter cfg st (l1 ++ l2) =
      ((runMeter cfg st l1).1 ++ (runMeter cfg (runMeter cfg st l1).2 l2).1,
       (runMeter cfg (runMeter cfg st l1).2 l2).2) := by
  induction l1 with
  | nil => intro st; rfl
  | cons ch rest ih =>
    intro st
    rw [List.cons_append, runMeter_cons, ih, runMeter_cons]
    rfl

theorem runMeter_final_fused {cfg : MeterCfg} {st : MeterState} {chs : List ChunkInput}
    (h : st.fused = true) : (runMeter cfg st chs).2.fused = true := by
  rw [runMeter_fused chs h]
  exact h

theorem deltaPart_none {cfg : MeterCfg} {st : MeterState} {json : Json} {el : Nat}
    (h : getDeltaContent json = none) : deltaPart cfg st json el = (st, [], false) := by
  unfold deltaPart
  rw [h]

theorem deltaPart_trip {cfg : MeterCfg} {st : MeterState} {json : Json} {el : Nat}
    {content : Str} (hc : getDeltaContent json = some content)
    (hl : cfg.limit ≤ totalDisp (st.totalPicos + deltaCostPicos cfg json)) :
    deltaPart cfg st json el =
      ({ st with
          fused := true,
          completionTokens := st.completionTokens + cfg.tok content,
          tokenEmitCounter := st.tokenEmitCounter + cfg.tok content,
          totalPicos := st.totalPicos + deltaCostPicos cfg json },
       [Event.billing cfg.model (totalDisp (st.totalPicos + deltaCostPicos cfg json))
          (calculate_real_time_cost cfg.tok json cfg.model cfg.cache).2 true,
        Event.error budgetReasonLit (totalDisp (st.totalPicos + deltaCostPicos cfg json))
          (calculate_real_time_cost cfg.tok json cfg.model cfg.cache).2],
       true) := by
  unfold deltaPart
  rw [hc]
  simp only [if_pos hl]

theorem deltaPart_events_shape (cfg : MeterCfg) (st : MeterState) (json : Json) (el : Nat) :
    (deltaPart cfg st json el).2.1 = [] ∨
    (∃ cur, (deltaPart cfg st json el).2.1 =
        [Event.billing cfg.model (totalDisp (deltaPart cfg st json el).1.totalPicos) cur false] ∧
        (deltaPart cfg st json el).2.2 = false) ∨
    (∃ cur, (deltaPart cfg st json el).2.1 =
        [Event.billing cfg.model (totalDisp (deltaPart cfg st json el).1.totalPicos) cur true,
         Event.error budgetReasonLit (totalDisp (deltaPart cfg st json el).1.totalPicos) cur] ∧
        (deltaPart cfg st json el).2.2 = true) := by
  unfold deltaPart
  cases getDeltaContent json with
  | none => left; rfl
  | some content =>
    dsimp only
    split
    · right; right; exact ⟨_, rfl, rfl⟩
    · split
      · split
        · right; left; exact ⟨_, rfl, rfl⟩
        · left; rfl
      · left; rfl

theorem deltaPart_totalPicos_ge (cfg : MeterCfg) (st : MeterState) (json : Json) (el : Nat) :
    st.totalPicos ≤ (deltaPart cfg st json el).1.totalPicos := by
  unfold deltaPart
  cases getDeltaContent json with
  | none => exact Nat.le_refl _
  | some content =>
    dsimp only
    split
    · exact Nat.le_add_right _ _
    · split
      · split
        · exact Nat.le_add_right _ _
        · exact Nat.le_add_right _ _
      · exact Nat.le_add_right _ _

theorem deltaPart_fused_eq (cfg : MeterCfg) (st : MeterState) (json : Json) (el : Nat) :
    (deltaPart cfg st json el).1.fused = (st.fused || (deltaPart cfg st json el).2.2) := by
  unfold deltaPart
  cases getDeltaContent json with
  | none => simp
  | some content =>
    dsimp only
    split
    · simp
    · split
      · split
        · simp
        · simp
      · simp

theorem deltaPart_completionTokens {cfg : MeterCfg} {st : MeterState} {json : Json} {el : Nat}
    {content : Str} (hc : getDeltaContent json = some content) :
    (deltaPart cfg st json el).1.completionTokens = st.completionTokens + cfg.tok content := by
  unfold deltaPart
  rw [hc]
  dsimp only
  split
  · rfl
  · split
    · split
      · rfl
      · rfl
    · rfl

theorem usagePart_fst (cfg : MeterCfg) (st : MeterState) (json : Json) :
    ∃ n, (usagePart cfg st json).1 = { st with requestCostCents := n } := by
  unfold usagePart
  split
  · exact ⟨st.requestCostCents, rfl⟩
  · split
    · exact ⟨st.requestCostCents, rfl⟩
    · dsimp only
      split
      · exact ⟨_, rfl⟩
      · exact ⟨st.requestCostCents, rfl⟩

theorem usagePart_events_shape (cfg : MeterCfg) (st : MeterState) (json : Json) :
    (usagePart cfg st json).2 = [] ∨
    ∃ c cur, (usagePart cfg st json).2 = [Event.billing cfg.model c cur false] := by
  unfold usagePart
  split
  · left; rfl
  · split
    · left; rfl
    · dsimp only
      split
      · right; exact ⟨_, _, rfl⟩
      · left; rfl

theorem processChunk_trip {cfg : MeterCfg} {st : MeterState} {ch : ChunkInput} {json : Json}
    {content : Str} (h0 : st.fused = false)
    (hs : sseFirstJson cfg.parse ch.bytes = some json)
    (hc : getDeltaContent json = some content)
    (hl : cfg.limit ≤ totalDisp (st.totalPicos + deltaCostPicos cfg json)) :
    processChunk cfg st ch =
      ({ st with
          fused := true,
          completionTokens := st.completionTokens + cfg.tok content,
          tokenEmitCounter := st.tokenEmitCounter + cfg.tok content,
          totalPicos := st.totalPicos + deltaCostPicos cfg json },
       [Event.billing cfg.model (totalDisp (st.totalPicos + deltaCostPicos cfg json))
          (calculate_real_time_cost cfg.tok json cfg.model cfg.cache).2 true,
        Event.error budgetReasonLit (totalDisp (st.totalPicos + deltaCostPicos cfg json))
          (calculate_real_time_cost cfg.tok json cfg.model cfg.cache).2],
       none) := by
  unfold processChunk
  rw [if_neg (by simp [h0]), hs]
  dsimp only
  rw [deltaPart_trip hc hl]
  rfl

theorem processChunk_events_clean (cfg : MeterCfg) (st : MeterState) (ch : ChunkInput)
    (h1 : (processChunk cfg st ch).1.fused = false) :
    ∀ e ∈ (processChunk cfg st ch).2.1, isFuseErr e = false := by
  by_cases h0 : st.fused
  · rw [processChunk_fused ch h0]
    intro e he
    exact absurd he (List.not_mem_nil e)
  · rw [Bool.not_eq_true] at h0
    unfold processChunk at h1 ⊢
    rw [if_neg (by simp [h0])] at h1 ⊢
    cases hs : sseFirstJson cfg.parse ch.bytes with
    | none =>
      intro e he
      exact absurd he (List.not_mem_nil e)
    | some json =>
      rw [hs] at h1
      dsimp only at h1 ⊢
      by_cases htr : (deltaPart cfg st json ch.elapsedMs).2.2
      · rw [if_pos htr] at h1
        have hf := deltaPart_fused_eq cfg st json ch.elapsedMs
        rw [h1, h0, htr] at hf
        simp at hf
      · rw [Bool.not_eq_true] at htr
        rw [if_neg (by simp [htr])] at h1 ⊢
        intro e he
        dsimp only at he
        rcases List.mem_append.1 he with hd | hu
        · rcases deltaPart_events_shape cfg st json ch.elapsedMs with hsh | ⟨cur, hsh, _⟩ | ⟨cur, hsh, hfl⟩
          · rw [hsh] at hd
            exact absurd hd (List.not_mem_nil e)
          · rw [hsh] at hd
            rw [List.mem_singleton.1 hd]
            rfl
          · rw [htr] at hfl
            exact absurd hfl (by simp)
        · rcases usagePart_events_shape cfg (deltaPart cfg st json ch.elapsedMs).1 json with
            hsh | ⟨c, cur, hsh⟩
          · rw [hsh] at hu
            exact absurd hu (List.not_mem_nil e)
          · rw [hsh] at hu
            rw [List.mem_singleton.1 hu]
            rfl

theorem runMeter_events_clean (cfg : MeterCfg) (chs : List ChunkInput) :
    ∀ st : MeterState, (runMeter cfg st chs).2.fused = false →
      ∀ p ∈ (runMeter cfg st chs).1, ∀ e ∈ p.1, isFuseErr e = false := by
  induction chs with
  | nil =>
    intro st _ p hp
    exact absurd hp (List.not_mem_nil p)
  | cons ch rest ih =>
    intro st hf p hp
    rw [runMeter_cons] at hf hp
    have hst1 : (processChunk cfg st ch).1.fused = false := by
      by_cases h : (processChunk cfg st ch).1.fused
      · rw [runMeter_final_fused h] at hf
        exact absurd hf (by simp)
      · exact Bool.not_eq_true _ ▸ h
    rcases List.mem_cons.1 hp with h1 | h1
    · subst h1
      exact processChunk_events_clean cfg st ch hst1
    · exact ih (processChunk cfg st ch).1 hf p h1

/-- C1: once the running total reaches the budget limit during per-delta
processing of a chunk, that chunk's processing sets the fused flag, emits
exactly one `billing` event with `fused: true` followed by one `error`
event with reason `budget_exceeded`, forwards none of the chunk's bytes,
and every later chunk is dropped with no further events — so the whole
request carries exactly this one fused billing event and one error event. -/
theorem c1_budget_fuse (cfg : MeterCfg) (st0 : MeterState) (pre : List ChunkInput)
    (ch : ChunkInput) (post : List ChunkInput) (json : Json)
    (hpre : (runMeter cfg st0 pre).2.fused = false)
    (hs : sseFirstJson cfg.parse ch.bytes = some json)
    (htrip : deltaTrips cfg (runMeter cfg st0 pre).2 json) :
    (runMeter cfg st0 (pre ++ ch :: post)).1 =
        (runMeter cfg st0 pre).1 ++
          ([Event.billing cfg.model
              (totalDisp ((runMeter cfg st0 pre).2.totalPicos + deltaCostPicos cfg json))
              (calculate_real_time_cost cfg.tok json cfg.model cfg.cache).2 true,
            Event.error budgetReasonLit
              (totalDisp ((runMeter cfg st0 pre).2.totalPicos + deltaCostPicos cfg json))
              (calculate_real_time_cost cfg.tok json cfg.model cfg.cache).2], none) ::
            post.map (fun _ => ([], none)) ∧
      (∀ p ∈ (runMeter cfg st0 pre).1, ∀ e ∈ p.1, isFuseErr e = false) ∧
      (runMeter cfg st0 (pre ++ ch :: post)).2.fused = true := by
  rcases htrip with ⟨content, hc, hl⟩
  have hstep := processChunk_trip hpre hs hc hl
  have hfsd : (processChunk cfg (runMeter cfg st0 pre).2 ch).1.fused = true := by
    rw [hstep]
  refine ⟨?_, runMeter_events_clean cfg pre st0 hpre, ?_⟩
  · rw [runMeter_append, runMeter_cons, runMeter_fused post hfsd, hstep]
  · rw [runMeter_append, runMeter_cons]
    exact runMeter_final_fused hfsd

/-- Witness for C1: with price 1 per token, limit 1, and a chunk whose
delta tokenizes to 5 tokens, the very first chunk trips the breaker and
the following chunk is dropped. -/
theorem c1_budget_fuse_witness :
    ((runMeter c1Cfg (meterInit 0) []).2.fused = false ∧
      sseFirstJson c1Cfg.parse c1Ch.bytes = some jsonAbcde ∧
      deltaTrips c1Cfg (runMeter c1Cfg (meterInit 0) []).2 jsonAbcde) ∧
      (runMeter c1Cfg (meterInit 0) ([] ++ c1Ch :: [c1Ch])).2.fused = true := by
  have htrip : deltaTrips c1Cfg (runMeter c1Cfg (meterInit 0) []).2 jsonAbcde :=
    ⟨"abcde".data, rfl, by with_unfolding_all decide⟩
  exact ⟨⟨rfl, rfl, htrip⟩,
    (c1_budget_fuse c1Cfg (meterInit 0) [] c1Ch [c1Ch] jsonAbcde rfl rfl htrip).2.2⟩

/-! ## Helper lemmas: billing-cost monotonicity (C2) -/

theorem deltaPart_event_cost (cfg : MeterCfg) (st : MeterState) (json : Json) (el : Nat) :
    ∀ e ∈ (deltaPart cfg st json el).2.1,
      Event.cost e = totalDisp (deltaPart cfg st json el).1.totalPicos := by
  intro e he
  rcases deltaPart_events_shape cfg st json el with hsh | ⟨cur, hsh, _⟩ | ⟨cur, hsh, _⟩
  · rw [hsh] at he
    exact absurd he (List.not_mem_nil e)
  · rw [hsh] at he
    rw [List.mem_singleton.1 he]
    rfl
  · rw [hsh] at he
    rcases List.mem_cons.1 he with h1 | h1
    · rw [h1]; rfl
    · rw [List.mem_singleton.1 h1]; rfl

theorem usagePart_totalPicos (cfg : MeterCfg) (st : MeterState) (json : Json) :
    (usagePart cfg st json).1.totalPicos = st.totalPicos := by
  rcases usagePart_fst cfg st json with ⟨n, h⟩
  rw [h]

theorem usagePart_completionTokens (cfg : MeterCfg) (st : MeterState) (json : Json) :
    (usagePart cfg st json).1.completionTokens = st.completionTokens := by
  rcases usagePart_fst cfg st json with ⟨n, h⟩
  rw [h]

theorem processChunk_totalPicos_ge (cfg : MeterCfg) (st : MeterState) (ch : ChunkInput) :
    st.totalPicos ≤ (processChunk cfg st ch).1.totalPicos := by
  by_cases h0 : st.fused
  · rw [processChunk_fused ch h0]
  · unfold processChunk
    rw [if_neg (by simp [h0])]
    cases hs : sseFirstJson cfg.parse ch.bytes with
    | none => exact Nat.le_refl _
    | some json =>
      dsimp only
      by_cases htr : (deltaPart cfg st json ch.elapsedMs).2.2
      · rw [if_pos htr]
        exact deltaPart_totalPicos_ge cfg st json ch.elapsedMs
      · rw [Bool.not_eq_true] at htr
        rw [if_neg (by simp [htr])]
        dsimp only
        rw [usagePart_totalPicos]
        exact deltaPart_totalPicos_ge cfg st json ch.elapsedMs

theorem processChunk_totalPicos_eq_delta {cfg : MeterCfg} {st : MeterState} {ch : ChunkInput}
    {json : Json} (h0 : st.fused = false) (hs : sseFirstJson cfg.parse ch.bytes = some json) :
    (processChunk cfg st ch).1.totalPicos = (deltaPart cfg st json ch.elapsedMs).1.totalPicos := by
  unfold processChunk
  rw [if_neg (by simp [h0]), hs]
  dsimp only
  by_cases htr : (deltaPart cfg st json ch.elapsedMs).2.2
  · rw [if_pos htr]
  · rw [Bool.not_eq_true] at htr
    rw [if_neg (by simp [htr])]
    dsimp only
    rw [usagePart_totalPicos]

theorem totalDisp_mono {p q : Nat} (h : p ≤ q) : totalDisp p ≤ totalDisp q := by
  unfold totalDisp
  have hc : (0 : ℚ) < 1000000000000 := by norm_num
  exact (div_le_div_iff_of_pos_right hc).2 (Nat.cast_le.2 h)

theorem chunkDeltaEvents_cost (cfg : MeterCfg) (st : MeterState) (ch : ChunkInput) :
    ∀ e ∈ chunkDeltaEvents cfg st ch,
      Event.cost e = totalDisp (processChunk cfg st ch).1.totalPicos := by
  intro e he
  unfold chunkDeltaEvents at he
  by_cases h0 : st.fused
  · rw [if_pos h0] at he
    exact absurd he (List.not_mem_nil e)
  · rw [Bool.not_eq_true] at h0
    rw [if_neg (by simp [h0])] at he
    cases hs : sseFirstJson cfg.parse ch.bytes with
    | none =>
      rw [hs] at he
      exact absurd he (List.not_mem_nil e)
    | some json =>
      rw [hs] at he
      rw [processChunk_totalPicos_eq_delta h0 hs]
      exact deltaPart_event_cost cfg st json ch.elapsedMs e he

theorem runContentCosts_cons (cfg : MeterCfg) (st : MeterState) (ch : ChunkInput)
    (rest : List ChunkInput) :
    runContentCosts cfg st (ch :: rest) =
      (chunkDeltaEvents cfg st ch).map Event.cost ++
        runContentCosts cfg (processChunk cfg st ch).1 rest := rfl

theorem runContentCosts_ge (cfg : MeterCfg) (chs : List ChunkInput) :
    ∀ st : MeterState, ∀ q ∈ runContentCosts cfg st chs, totalDisp st.totalPicos ≤ q := by
  induction chs with
  | nil =>
    intro st q hq
    exact absurd hq (List.not_mem_nil q)
  | cons ch rest ih =>
    intro st q hq
    rw [runContentCosts_cons] at hq
    rcases List.mem_append.1 hq with h1 | h1
    · rcases List.mem_map.1 h1 with ⟨e, he, hc⟩
      rw [← hc, chunkDeltaEvents_cost cfg st ch e he]
      exact totalDisp_mono (processChunk_totalPicos_ge cfg st ch)
    · exact le_trans (totalDisp_mono (processChunk_totalPicos_ge cfg st ch))
        (ih (processChunk cfg st ch).1 q h1)

theorem chain_le_of_const {l : List ℚ} {d : ℚ} (h : ∀ x ∈ l, x = d) :
    List.Chain' (fun a b => a ≤ b) l := by
  induction l with
  | nil => exact List.chain'_nil
  | cons a t ih =>
    cases t with
    | nil => exact List.chain'_singleton a
    | cons b t2 =>
      rw [List.chain'_cons]
      refine ⟨?_, ih ?_⟩
      · rw [h a (List.mem_cons_self a _), h b (List.mem_cons_of_mem a (List.mem_cons_self b _))]
      · intro x hx
        exact h x (List.mem_cons_of_mem a hx)

theorem runContentCosts_chain (cfg : MeterCfg) (chs : List ChunkInput) :
    ∀ st : MeterState, List.Chain' (fun a b => a ≤ b) (runContentCosts cfg st chs) := by
  induction chs with
  | nil => intro st; exact List.chain'_nil
  | cons ch rest ih =>
    intro st
    rw [runContentCosts_cons, List.chain'_append]
    refine ⟨chain_le_of_const
      (d := totalDisp (processChunk cfg st ch).1.totalPicos) ?_,
      ih (processChunk cfg st ch).1, ?_⟩
    · intro x hx
      rcases List.mem_map.1 hx with ⟨e, he, hc⟩
      rw [← hc]
      exact chunkDeltaEvents_cost cfg st ch e he
    · intro x hx y hy
      have hxm : x ∈ (chunkDeltaEvents cfg st ch).map Event.cost := by
        rcases List.mem_map.1 (List.mem_of_mem_getLast? hx) with ⟨e, he, hc⟩
        exact List.mem_map.2 ⟨e, he, hc⟩
      rcases List.mem_map.1 hxm with ⟨e, he, hc⟩
      rw [← hc, chunkDeltaEvents_cost cfg st ch e he]
      have hym : y ∈ runContentCosts cfg (processChunk cfg st ch).1 rest :=
        List.mem_of_mem_head? hy
      exact runContentCosts_ge cfg rest (processChunk cfg st ch).1 y hym

/-- C2 (amended): within a request, every billing (or error) event emitted
from the delta-processing path — the throttled events and the fuse pair —
carries as `cost` the cumulative running total at the moment of emission,
the running total is non-decreasing across chunks, and hence the sequence
of delta-path billing costs is non-decreasing.  (The final authoritative
billing event emitted on the terminal `usage` chunk instead carries the
per-request authoritative cost, which can be smaller; see the
counterexample.) -/
theorem c2_billing_cost_monotone :
    (∀ (cfg : MeterCfg) (st : MeterState) (json : Json) (el : Nat),
        ∀ e ∈ (deltaPart cfg st json el).2.1,
          Event.cost e = totalDisp (deltaPart cfg st json el).1.totalPicos) ∧
      (∀ (cfg : MeterCfg) (st : MeterState) (ch : ChunkInput),
        st.totalPicos ≤ (processChunk cfg st ch).1.totalPicos) ∧
      (∀ (cfg : MeterCfg) (st : MeterState) (chs : List ChunkInput),
        List.Chain' (fun a b => a ≤ b) (runContentCosts cfg st chs)) :=
  ⟨deltaPart_event_cost, processChunk_totalPicos_ge,
    fun cfg st chs => runContentCosts_chain cfg chs st⟩

/-- Witness for C2: in the concrete two-chunk run, the throttled billing
event of the first chunk carries exactly the cumulative running total. -/
theorem c2_billing_cost_monotone_witness :
    c2Event ∈ (deltaPart c2Cfg (meterInit 1000000000000) jsonAbcde 0).2.1 ∧
      Event.cost c2Event =
        totalDisp (deltaPart c2Cfg (meterInit 1000000000000) jsonAbcde 0).1.totalPicos :=
  ⟨by with_unfolding_all decide,
    c2_billing_cost_monotone.1 c2Cfg (meterInit 1000000000000) jsonAbcde 0 c2Event
      (by with_unfolding_all decide)⟩

/-- C2 counterexample: with the global counter already holding cost from
earlier requests (1.0 currency unit), a run that emits one throttled
billing event (cost 1.005, the cumulative total) and then the final
authoritative billing event (cost 0.006, the per-request cost) produces a
DECREASING `billing.cost` sequence, and the final event's cost differs
from the running total at its emission — refuting both parts of the claim
as stated. -/
theorem c2_counterexample :
    billingCosts (runMeter c2Cfg (meterInit 1000000000000) [c2ChA, c2ChU]).1 =
        [(201 : ℚ) / 200, (3 : ℚ) / 500] ∧
      ¬((201 : ℚ) / 200 ≤ (3 : ℚ) / 500) ∧
      totalDisp (runMeter c2Cfg (meterInit 1000000000000) [c2ChA, c2ChU]).2.totalPicos ≠
        (3 : ℚ) / 500 :=
  ⟨by with_unfolding_all decide, by with_unfolding_all decide, by with_unfolding_all decide⟩

/-! ## C3: the authoritative final billing event -/

/-- C3 (amended): on a chunk whose first parsed object carries a `usage`
field that deserializes, provided the budget did not trip on that chunk
and the authoritative cost is positive, the meter emits exactly one final
billing event whose cost is `calculate_actual_cost_with_tokens` applied to
the vendor-reported `prompt_tokens` and the METER'S OWN accumulated
completion-token counter (the vendor's `completion_tokens` is ignored),
with no throttling condition, and forwards the chunk.  When the usage
fails to parse or the computed cost is zero, no final event is emitted. -/
theorem c3_authoritative_final (cfg : MeterCfg) (st : MeterState) (ch : ChunkInput)
    (json uv : Json) (u : Usage)
    (h0 : st.fused = false)
    (hs : sseFirstJson cfg.parse ch.bytes = some json)
    (htr : (deltaPart cfg st json ch.elapsedMs).2.2 = false)
    (hu : getField json usageKey = some uv)
    (hp : parseUsage uv = some u)
    (hpos : 0 < (calculate_actual_cost_with_tokens cfg.model (u.prompt_tokens.getD 0 : ℚ)
        ((deltaPart cfg st json ch.elapsedMs).1.completionTokens : ℚ) cfg.cache).1) :
    processChunk cfg st ch =
      ({ (deltaPart cfg st json ch.elapsedMs).1 with
          requestCostCents := (deltaPart cfg st json ch.elapsedMs).1.requestCostCents +
            f64ToU64 ((calculate_actual_cost_with_tokens cfg.model (u.prompt_tokens.getD 0 : ℚ)
                ((deltaPart cfg st json ch.elapsedMs).1.completionTokens : ℚ) cfg.cache).1 * 100) },
       (deltaPart cfg st json ch.elapsedMs).2.1 ++
         [Event.billing cfg.model
            (calculate_actual_cost_with_tokens cfg.model (u.prompt_tokens.getD 0 : ℚ)
              ((deltaPart cfg st json ch.elapsedMs).1.completionTokens : ℚ) cfg.cache).1
            (calculate_actual_cost_with_tokens cfg.model (u.prompt_tokens.getD 0 : ℚ)
              ((deltaPart cfg st json ch.elapsedMs).1.completionTokens : ℚ) cfg.cache).2 false],
       some ch.bytes) := by
  unfold processChunk
  rw [if_neg (by simp [h0]), hs]
  dsimp only
  rw [if_neg (by simp [htr])]
  unfold usagePart
  rw [hu]
  dsimp only
  rw [hp]
  dsimp only
  rw [if_pos hpos]

/-- Witness for C3: vendor reports `input_tokens 10, output_tokens 7` (via
the serde aliases) but the meter has counted 5 completion tokens; the
final billing cost is `10*0.001 + 5*0.001 = 0.015`, using the meter's 5,
not the vendor's 7. -/
theorem c3_authoritative_final_witness :
    parseUsage usageObjAlias = some ⟨some 10, some 7, none⟩ ∧
      (0 : ℚ) <
        (calculate_actual_cost_with_tokens c3wCfg.model ((10 : Nat) : ℚ)
          ((deltaPart c3wCfg c3wState jsonUsageAlias c3wCh.elapsedMs).1.completionTokens : ℚ)
          c3wCfg.cache).1 ∧
      (processChunk c3wCfg c3wState c3wCh).2.1 =
        [Event.billing c3wCfg.model ((15 : ℚ) / 1000) usdLit false] := by
  refine ⟨by decide, by with_unfolding_all decide, ?_⟩
  have h := c3_authoritative_final c3wCfg c3wState c3wCh jsonUsageAlias usageObjAlias
    ⟨some 10, some 7, none⟩ rfl rfl rfl rfl rfl (by with_unfolding_all decide)
  rw [h]
  with_unfolding_all decide

/-- C3 counterexample: a streaming request whose terminal chunk carries
the usage object `{"prompt_tokens":0,"completion_tokens":0}` — the usage
is present and parses, yet the meter emits NO final billing event (the
emit is guarded by `actual_cost > 0.0`, main.rs:451), refuting the claim
that every terminal usage chunk produces one. -/
theorem c3_counterexample :
    getField jsonUsage0 usageKey = some usageObj0 ∧
      parseUsage usageObj0 = some ⟨some 0, some 0, none⟩ ∧
      sseFirstJson c3Cfg.parse c3Ch.bytes = some jsonUsage0 ∧
      (processChunk c3Cfg (meterInit 0) c3Ch).2.1 = [] :=
  ⟨rfl, by decide, rfl, by with_unfolding_all decide⟩

/-! ## C8: SSE line handling -/

theorem filterMap_filter_fused {α β : Type} (p : α → Bool) (f : α → Option β) (l : List α) :
    (l.filter p).filterMap f = l.filterMap (fun x => if p x then f x else none) := by
  induction l with
  | nil => rfl
  | cons a t ih =>
    by_cases h : p a <;> simp [List.filter_cons, List.filterMap_cons, h, ih]

theorem processChunk_completionTokens {cfg : MeterCfg} {st : MeterState} {ch : ChunkInput}
    {json : Json} {content : Str} (h0 : st.fused = false)
    (hs : sseFirstJson cfg.parse ch.bytes = some json)
    (hc : getDeltaContent json = some content) :
    (processChunk cfg st ch).1.completionTokens = st.completionTokens + cfg.tok content := by
  unfold processChunk
  rw [if_neg (by simp [h0]), hs]
  dsimp only
  by_cases htr : (deltaPart cfg st json ch.elapsedMs).2.2
  · rw [if_pos htr]
    exact deltaPart_completionTokens hc
  · rw [Bool.not_eq_true] at htr
    rw [if_neg (by simp [htr])]
    dsimp only
    rw [usagePart_completionTokens]
    exact deltaPart_completionTokens hc

theorem processChunk_no_json {cfg : MeterCfg} {st : MeterState} {ch : ChunkInput}
    (h0 : st.fused = false) (hs : sseFirstJson cfg.parse ch.bytes = none) :
    processChunk cfg st ch = (st, [], some ch.bytes) := by
  unfold processChunk
  rw [if_neg (by simp [h0]), hs]

/-- C8 (amended): the meter splits the chunk text on lines, but meters
ONLY the first line that begins with `data: `, is not the `[DONE]`
sentinel and parses as JSON (lines failing any of these are skipped while
searching); that single object's delta content is tokenized and added to
the completion counter, and later `data: ` lines of the same chunk are
never metered.  When no line qualifies, the chunk is forwarded untouched
with no metering. -/
theorem c8_first_data_line_only :
    (∀ (parse : Str → Option Json) (s : Str),
        sseFirstJson parse s = ((rustLines s).filterMap (lineValue parse)).head?) ∧
      (∀ (cfg : MeterCfg) (st : MeterState) (ch : ChunkInput) (json : Json) (content : Str),
        st.fused = false → sseFirstJson cfg.parse ch.bytes = some json →
          getDeltaContent json = some content →
          (processChunk cfg st ch).1.completionTokens = st.completionTokens + cfg.tok content) ∧
      (∀ (cfg : MeterCfg) (st : MeterState) (ch : ChunkInput),
        st.fused = false → sseFirstJson cfg.parse ch.bytes = none →
          processChunk cfg st ch = (st, [], some ch.bytes)) := by
  refine ⟨?_, ?_, ?_⟩
  · intro parse s
    unfold sseFirstJson
    rw [filterMap_filter_fused]
    rfl
  · intro cfg st ch json content h0 hs hc
    exact processChunk_completionTokens h0 hs hc
  · intro cfg st ch h0 hs
    exact processChunk_no_json h0 hs

/-- Witness for C8: on the two-data-line chunk the first line's object
(`content "hi"`, 2 tokens) is what gets metered. -/
theorem c8_first_data_line_only_witness :
    ((meterInit 0).fused = false ∧
      sseFirstJson c8Cfg.parse c8Ch.bytes = some jsonHi ∧
      getDeltaContent jsonHi = some "hi".data) ∧
      (processChunk c8Cfg (meterInit 0) c8Ch).1.completionTokens =
        (meterInit 0).completionTokens + c8Cfg.tok "hi".data :=
  ⟨⟨rfl, rfl, rfl⟩,
    c8_first_data_line_only.2.1 c8Cfg (meterInit 0) c8Ch jsonHi "hi".data rfl rfl rfl⟩

/-- C8 counterexample: a single chunk carrying TWO parseable `data: `
lines (contents `"hi"` → 2 tokens and `"hello"` → 5 tokens) adds only 2
tokens to the completion counter — the second data line is never metered,
refuting the claim that all data lines of a chunk are processed. -/
theorem c8_counterexample :
    c8Cfg.parse "chunkA".data = some jsonHi ∧
      c8Cfg.parse "chunkB".data = some jsonHello ∧
      getDeltaContent jsonHi = some "hi".data ∧
      getDeltaContent jsonHello = some "hello".data ∧
      rustLines c8Ch.bytes = ["data: chunkA".data, "data: chunkB".data, ([] : Str)] ∧
      tokLen "hi".data + tokLen "hello".data = 7 ∧
      (processChunk c8Cfg (meterInit 0) c8Ch).1.completionTokens = 2 ∧
      (2 : Nat) ≠ 7 :=
  ⟨rfl, rfl, rfl, rfl, by decide, by decide, by with_unfolding_all decide, by decide⟩

/-! ## Helper lemmas: currency and conversion (C4, C5) -/

theorem isChineseModel_of_deepseek {ml : Str} (h : strContains ml deepseekLit = true) :
    isChineseModel ml = true := by
  unfold isChineseModel
  rw [h]
  simp

theorem costWithPrice_deepseek {model : Str} {i o : ℚ} {price : PriceInfo}
    (h : strContains (strLower model) deepseekLit = true) :
    costWithPrice model i o price =
      ((i * price.input_price + o * price.output_price) * (7.2 : ℚ), cnyLit) := by
  unfold costWithPrice
  dsimp only
  rw [FORCE_CNY_FOR_CHINESE_MODELS, isChineseModel_of_deepseek h,
    if_pos (show (true && true) = true from rfl), if_pos h]

theorem costWithPrice_fst_not_deepseek {model : Str} {i o : ℚ} {price : PriceInfo}
    (h : strContains (strLower model) deepseekLit = false) :
    (costWithPrice model i o price).1 = i * price.input_price + o * price.output_price := by
  unfold costWithPrice
  dsimp only
  rw [FORCE_CNY_FOR_CHINESE_MODELS]
  by_cases hch : isChineseModel (strLower model)
  · rw [hch, if_pos (show (true && true) = true from rfl),
      if_neg (by rw [h]; exact fun hx => Bool.noConfusion hx)]
  · rw [Bool.not_eq_true] at hch
    rw [hch, if_neg (by exact fun hx => Bool.noConfusion hx)]
    by_cases hcny : isCnyActual (strLower model) price
    · rw [if_pos hcny]
    · rw [Bool.not_eq_true] at hcny
      rw [hcny, if_neg (by exact fun hx => Bool.noConfusion hx)]

theorem costWithPrice_cny_of_chinese {model : Str} {i o : ℚ} {price : PriceInfo}
    (h : isChineseModel (strLower model) = true) :
    (costWithPrice model i o price).2 = cnyLit := by
  unfold costWithPrice
  dsimp only
  rw [FORCE_CNY_FOR_CHINESE_MODELS, h, if_pos (show (true && true) = true from rfl)]
  by_cases hd : strContains (strLower model) deepseekLit
  · rw [if_pos hd]
  · rw [Bool.not_eq_true] at hd
    rw [hd, if_neg (by exact fun hx => Bool.noConfusion hx)]

theorem isCnyRealTime_of_four {ml : Str} {price : PriceInfo}
    (h : strContains ml qwenLit = true ∨ strContains ml glmLit = true ∨
      strContains ml zhipuLit = true ∨ strContains ml yiLit = true) :
    isCnyRealTime ml price = true := by
  unfold isCnyRealTime
  rcases h with h | h | h | h <;> rw [h] <;> simp

theorem isCnyRealTime_deepseek_false {ml : Str} {price : PriceInfo}
    (h1 : strContains ml qwenLit = false) (h2 : strContains ml glmLit = false)
    (h3 : strContains ml zhipuLit = false) (h4 : strContains ml yiLit = false)
    (h5 : strContains ml deepseekLit = true) : isCnyRealTime ml price = false := by
  unfold isCnyRealTime
  rw [h1, h2, h3, h4, h5]
  simp

/-- C4 (amended): with a price-cache hit, the per-delta streaming path
(`calculate_real_time_cost`) attributes CNY for models containing `qwen`,
`glm`, `zhipu` or `yi-`, but attributes USD for `deepseek` models (the
per-delta code at types.rs:70-73 explicitly maps deepseek to USD); the
authoritative paths (`calculate_actual_cost` and
`calculate_actual_cost_with_tokens`) attribute CNY for all five families,
deepseek included. -/
theorem c4_currency_attribution :
    (∀ (tok : Str → Nat) (json : Json) (model : Str) (cache : List (Str × PriceInfo))
        (content : Str) (price : PriceInfo),
        getDeltaContent json = some content →
        lookupPriceOpt cache (normalize_model_name model) = some price →
        (strContains (strLower model) qwenLit = true ∨
          strContains (strLower model) glmLit = true ∨
          strContains (strLower model) zhipuLit = true ∨
          strContains (strLower model) yiLit = true) →
        (calculate_real_time_cost tok json model cache).2 = cnyLit) ∧
      (∀ (tok : Str → Nat) (json : Json) (model : Str) (cache : List (Str × PriceInfo))
        (content : Str) (price : PriceInfo),
        getDeltaContent json = some content →
        lookupPriceOpt cache (normalize_model_name model) = some price →
        strContains (strLower model) qwenLit = false →
        strContains (strLower model) glmLit = false →
        strContains (strLower model) zhipuLit = false →
        strContains (strLower model) yiLit = false →
        strContains (strLower model) deepseekLit = true →
        (calculate_real_time_cost tok json model cache).2 = usdLit) ∧
      (∀ (model : Str) (usage : Usage) (cache : List (Str × PriceInfo)),
        isChineseModel (strLower model) = true →
          (calculate_actual_cost model usage cache).2 = cnyLit) ∧
      (∀ (model : Str) (p c : ℚ) (cache : List (Str × PriceInfo)),
        isChineseModel (strLower model) = true →
          (calculate_actual_cost_with_tokens model p c cache).2 = cnyLit) := by
  refine ⟨?_, ?_, ?_, ?_⟩
  · intro tok json model cache content price hc hp h4
    unfold calculate_real_time_cost
    rw [hc]
    dsimp only
    rw [hp]
    dsimp only
    rw [isCnyRealTime_of_four h4]
    rfl
  · intro tok json model cache content price hc hp h1 h2 h3 h4 h5
    unfold calculate_real_time_cost
    rw [hc]
    dsimp only
    rw [hp]
    dsimp only
    rw [isCnyRealTime_deepseek_false h1 h2 h3 h4 h5]
    rfl
  · intro model usage cache h
    exact costWithPrice_cny_of_chinese h
  · intro model p c cache h
    exact costWithPrice_cny_of_chinese h

/-- Witness for C4: a `qwen-plus` delta is attributed CNY on the
per-delta path. -/
theorem c4_currency_attribution_witness :
    (getDeltaContent jsonHi = some "hi".data ∧
      lookupPriceOpt c4CacheQwen (normalize_model_name qwenPlusStr) =
        some ⟨1 / 1000000, 2 / 1000000⟩ ∧
      strContains (strLower qwenPlusStr) qwenLit = true) ∧
      (calculate_real_time_cost tokLen jsonHi qwenPlusStr c4CacheQwen).2 = cnyLit :=
  ⟨⟨rfl, rfl, by decide⟩,
    c4_currency_attribution.1 tokLen jsonHi qwenPlusStr c4CacheQwen "hi".data
      ⟨1 / 1000000, 2 / 1000000⟩ rfl rfl (Or.inl (by decide))⟩

/-- C4 counterexample: for model `deepseek-chat` (cache hit, delta
present) the per-delta streaming path attributes USD, not the claimed
CNY, while the authoritative path attributes CNY for the same model. -/
theorem c4_counterexample :
    (calculate_real_time_cost tokLen jsonHi dsChatStr c4Cache).2 = usdLit ∧
      (calculate_actual_cost dsChatStr ⟨some 1, some 1, none⟩ c4Cache).2 = cnyLit ∧
      usdLit ≠ cnyLit :=
  ⟨rfl, rfl, by decide⟩

/-- C5: with `FORCE_CNY_FOR_CHINESE_MODELS = true` (its value in the
source), the authoritative cost of every model whose lowercased name
contains `deepseek` is the price-table cost multiplied by exactly 7.2 and
reported as CNY; for every other model the cost is the unmultiplied
price-table cost; in particular `deepseek-v3` with per-token prices
(1e-6, 2e-6) and usage (100, 50) bills (100e-6 + 100e-6) * 7.2 = 0.00144
CNY. -/
theorem c5_deepseek_conversion :
    (∀ (model : Str) (usage : Usage) (cache : List (Str × PriceInfo)),
        strContains (strLower model) deepseekLit = true →
          calculate_actual_cost model usage cache =
            (tableCost model (usage.prompt_tokens.getD 0 : ℚ)
              (usage.completion_tokens.getD 0 : ℚ) cache * (7.2 : ℚ), cnyLit)) ∧
      (∀ (model : Str) (usage : Usage) (cache : List (Str × PriceInfo)),
        strContains (strLower model) deepseekLit = false →
          (calculate_actual_cost model usage cache).1 =
            tableCost model (usage.prompt_tokens.getD 0 : ℚ)
              (usage.completion_tokens.getD 0 : ℚ) cache) ∧
      calculate_actual_cost dsV3Str c5Usage c5Cache = ((0.00144 : ℚ), cnyLit) := by
  refine ⟨?_, ?_, ?_⟩
  · intro model usage cache h
    unfold calculate_actual_cost
    rw [costWithPrice_deepseek h]
    rfl
  · intro model usage cache h
    unfold calculate_actual_cost
    rw [costWithPrice_fst_not_deepseek h]
    rfl
  · unfold calculate_actual_cost
    rw [costWithPrice_deepseek (by decide)]
    have hl : lookupWithSentinel c5Cache (normalize_model_name dsV3Str) =
        ⟨1 / 1000000, 2 / 1000000⟩ := rfl
    rw [hl]
    refine Prod.ext ?_ rfl
    show ((c5Usage.prompt_tokens.getD 0 : ℚ) * (1 / 1000000) +
        (c5Usage.completion_tokens.getD 0 : ℚ) * (2 / 1000000)) * (7.2 : ℚ) = (0.00144 : ℚ)
    norm_num [c5Usage]

/-- Witness for C5: the deepseek branch applied at `deepseek-v3`. -/
theorem c5_deepseek_conversion_witness :
    strContains (strLower dsV3Str) deepseekLit = true ∧
      calculate_actual_cost dsV3Str c5Usage c5Cache =
        (tableCost dsV3Str (c5Usage.prompt_tokens.getD 0 : ℚ)
          (c5Usage.completion_tokens.getD 0 : ℚ) c5Cache * (7.2 : ℚ), cnyLit) :=
  ⟨by decide, c5_deepseek_conversion.1 dsV3Str c5Usage c5Cache (by decide)⟩

/-! ## C6: sentinel price fallback -/

/-- C6 (amended): on a full price-lookup miss the authoritative paths
(`calculate_actual_cost`, `calculate_actual_cost_with_tokens`) continue
with the sentinel price (0.00001 / 0.00001) instead of failing; the
per-delta streaming path (`calculate_real_time_cost`), however, has NO
sentinel: on a miss (and no `usage` field in the chunk) it returns cost 0
with currency USD, so the delta is billed at zero, not at the sentinel
price. -/
theorem c6_sentinel_fallback :
    (∀ (model : Str) (usage : Usage) (cache : List (Str × PriceInfo)),
        lookupPriceOpt cache (normalize_model_name model) = none →
          calculate_actual_cost model usage cache =
            costWithPrice model (usage.prompt_tokens.getD 0 : ℚ)
              (usage.completion_tokens.getD 0 : ℚ) sentinelPrice) ∧
      (∀ (model : Str) (p c : ℚ) (cache : List (Str × PriceInfo)),
        lookupPriceOpt cache (normalize_model_name model) = none →
          calculate_actual_cost_with_tokens model p c cache =
            costWithPrice model p c sentinelPrice) ∧
      (∀ (tok : Str → Nat) (chunk : Json) (model : Str) (cache : List (Str × PriceInfo)),
        lookupPriceOpt cache (normalize_model_name model) = none →
          getField chunk usageKey = none →
          calculate_real_time_cost tok chunk model cache = (0, usdLit)) := by
  refine ⟨?_, ?_, ?_⟩
  · intro model usage cache h
    unfold calculate_actual_cost lookupWithSentinel
    rw [h]
    rfl
  · intro model p c cache h
    unfold calculate_actual_cost_with_tokens lookupWithSentinel
    rw [h]
    rfl
  · intro tok chunk model cache h hu
    unfold calculate_real_time_cost
    cases hg : getDeltaContent chunk with
    | none =>
      unfold usageFallback
      rw [hu]
    | some content =>
      dsimp only
      rw [h]
      unfold usageFallback
      rw [hu]

/-- Witness for C6: empty cache, chunk without `usage`: the per-delta
path yields zero cost. -/
theorem c6_sentinel_fallback_witness :
    (lookupPriceOpt [] (normalize_model_name "foo".data) = none ∧
      getField jsonHello usageKey = none) ∧
      calculate_real_time_cost tokLen jsonHello "foo".data [] = (0, usdLit) :=
  ⟨⟨rfl, rfl⟩, c6_sentinel_fallback.2.2 tokLen jsonHello "foo".data [] rfl rfl⟩

/-- C6 counterexample: a delta of 5 tokens with an empty price cache is
billed 0 by the per-delta path, not the sentinel-priced
`5 * 0.00001 = 0.00005` the claim predicts for that path. -/
theorem c6_counterexample :
    getDeltaContent jsonHello = some "hello".data ∧
      lookupPriceOpt [] (normalize_model_name "foo".data) = none ∧
      calculate_real_time_cost tokLen jsonHello "foo".data [] = (0, usdLit) ∧
      ((tokLen "hello".data : ℚ) * sentinelPrice.output_price ≠ 0) :=
  ⟨rfl, rfl, by with_unfolding_all decide, by with_unfolding_all decide⟩

/-! ## C7: catalogue sync filters -/

/-- C7: an entry of the fetched catalogue is written to the price store if
and only if it passes every filter: neither skipped for both per-token
prices being 0.0, nor for the raw model id ending in one of the suffixes
`instruct`/`chat`/`-latest`/`-v1:0`/`:0`, nor for matching one of the
dated-variant regexes, nor for its normalized name being on the
protected-models allow-list; and what is written is exactly the extracted
prices under the normalized name with vendor tag `litellm_auto`. -/
theorem c7_catalogue_filter (pm : List Str) (mid : Str) (info : Json) :
    (processEntry pm mid info =
        some (normalize_model_name mid,
          ⟨((getField info inCostKey).bind asF64).getD 0,
           ((getField info outCostKey).bind asF64).getD 0, litellmAutoLit⟩) ↔
      (¬(((getField info inCostKey).bind asF64).getD 0 = 0 ∧
          ((getField info outCostKey).bind asF64).getD 0 = 0) ∧
        suffix_patterns.any (fun suf => strEnds mid suf) = false ∧
        date_patterns.any (fun p => patFound p mid) = false ∧
        pm.contains (normalize_model_name mid) = false)) ∧
      (∀ r, processEntry pm mid info = some r →
        r = (normalize_model_name mid,
          ⟨((getField info inCostKey).bind asF64).getD 0,
           ((getField info outCostKey).bind asF64).getD 0, litellmAutoLit⟩)) := by
  unfold processEntry
  dsimp only
  split_ifs with h1 h2 h3 h4
  · refine ⟨⟨fun hx => absurd hx (by simp), fun hx => absurd h1 hx.1⟩, ?_⟩
    intro r hr
    exact absurd hr (by simp)
  · refine ⟨⟨fun hx => absurd hx (by simp), fun hx => ?_⟩, ?_⟩
    · rw [h2] at hx
      exact Bool.noConfusion hx.2.1
    · intro r hr
      exact absurd hr (by simp)
  · refine ⟨⟨fun hx => absurd hx (by simp), fun hx => ?_⟩, ?_⟩
    · rw [h3] at hx
      exact Bool.noConfusion hx.2.2.1
    · intro r hr
      exact absurd hr (by simp)
  · refine ⟨⟨fun hx => absurd hx (by simp), fun hx => ?_⟩, ?_⟩
    · rw [h4] at hx
      exact Bool.noConfusion hx.2.2.2
    · intro r hr
      exact absurd hr (by simp)
  · refine ⟨⟨fun _ => ⟨h1, ?_, ?_, ?_⟩, fun _ => rfl⟩, ?_⟩
    · exact Bool.not_eq_true _ ▸ h2
    · exact Bool.not_eq_true _ ▸ h3
    · exact Bool.not_eq_true _ ▸ h4
    · intro r hr
      exact (Option.some.inj hr).symm

/-- Witness for C7, the spec's boundary scenario 5: `gpt-4o` with nonzero
prices passes every filter and is upserted; the dated, suffixed and
protected variants are all skipped. -/
theorem c7_catalogue_filter_witness :
    (¬(((getField infoNZ inCostKey).bind asF64).getD 0 = 0 ∧
        ((getField infoNZ outCostKey).bind asF64).getD 0 = 0) ∧
      suffix_patterns.any (fun suf => strEnds gpt4oStr suf) = false ∧
      date_patterns.any (fun p => patFound p gpt4oStr) = false ∧
      ([] : List Str).contains (normalize_model_name gpt4oStr) = false) ∧
      processEntry [] gpt4oStr infoNZ =
        some (normalize_model_name gpt4oStr,
          ⟨((getField infoNZ inCostKey).bind asF64).getD 0,
           ((getField infoNZ outCostKey).bind asF64).getD 0, litellmAutoLit⟩) ∧
      processEntry [] "gpt-4o-2024-05-13".data infoNZ = none ∧
      processEntry [] "claude-3-sonnet-20240229".data infoNZ = none ∧
      processEntry [] "gpt-4o-chat".data infoNZ = none ∧
      processEntry [] "gpt-4o:0".data infoNZ = none ∧
      processEntry ["qwen-vl-max".data] "qwen-vl-max".data infoNZ = none := by
  have hcond : ¬(((getField infoNZ inCostKey).bind asF64).getD 0 = 0 ∧
      ((getField infoNZ outCostKey).bind asF64).getD 0 = 0) ∧
      suffix_patterns.any (fun suf => strEnds gpt4oStr suf) = false ∧
      date_patterns.any (fun p => patFound p gpt4oStr) = false ∧
      ([] : List Str).contains (normalize_model_name gpt4oStr) = false := by
    refine ⟨?_, by decide, by decide, by decide⟩
    intro hx
    have : ((1 : ℚ) / 1000000) = 0 := hx.1
    norm_num at this
  refine ⟨hcond, (c7_catalogue_filter [] gpt4oStr infoNZ).1.mpr hcond, ?_, ?_, ?_, ?_, ?_⟩
  · with_unfolding_all decide
  · with_unfolding_all decide
  · with_unfolding_all decide
  · with_unfolding_all decide
  · with_unfolding_all decide

/-! ## C10: non-streaming billing leaves the global counter unchanged -/

/-- C10: the non-streaming billing path never modifies the process-wide
`total_cost` counter — the authoritative cost only increments the
per-request `request_cost` counter — and any billing event it broadcasts
carries as `cost` the global total exactly as it stood before the request
(`total_cost / 10^12`), so non-streaming usage never consumes the
budget. -/
theorem c10_nonstream_frame (cache : List (Str × PriceInfo)) (model : Str)
    (totalPicos requestCostCents : Nat) (respUsage : Option Json)
    (t r : Nat) (evs : List Event)
    (h : nonStreamBilling cache model totalPicos requestCostCents respUsage =
      some (t, r, evs)) :
    t = totalPicos ∧
      ∀ e ∈ evs, ∃ cur, e = Event.billing model (totalDisp totalPicos) cur false := by
  unfold nonStreamBilling at h
  cases respUsage with
  | none =>
    rcases Option.some.inj h with h1
    rcases Prod.mk.injEq .. ▸ h1 with ⟨h2, h3⟩
    rcases Prod.mk.injEq .. ▸ h3 with ⟨h4, h5⟩
    refine ⟨h2.symm, ?_⟩
    intro e he
    rw [← h5] at he
    exact absurd he (List.not_mem_nil e)
  | some uv =>
    dsimp only at h
    cases hp : parseUsage uv with
    | none =>
      rw [hp] at h
      exact absurd h (by simp)
    | some u =>
      rw [hp] at h
      dsimp only at h
      split at h
      · rcases Option.some.inj h with h1
        rcases Prod.mk.injEq .. ▸ h1 with ⟨h2, h3⟩
        rcases Prod.mk.injEq .. ▸ h3 with ⟨h4, h5⟩
        refine ⟨h2.symm, ?_⟩
        intro e he
        rw [← h5] at he
        rw [List.mem_singleton.1 he]
        exact ⟨_, rfl⟩
      · rcases Option.some.inj h with h1
        rcases Prod.mk.injEq .. ▸ h1 with ⟨h2, h3⟩
        rcases Prod.mk.injEq .. ▸ h3 with ⟨h4, h5⟩
        refine ⟨h2.symm, ?_⟩
        intro e he
        rw [← h5] at he
        exact absurd he (List.not_mem_nil e)

/-- Witness for C10: a non-streaming response with usage (10, 5): the
global counter stays at 12345 pico-units, the authoritative cost 0.015
lands only in the request counter (as 1 cent), and the billing event
carries the old global total. -/
theorem c10_nonstream_frame_witness :
    nonStreamBilling c10Cache "M".data 12345 0 (some c10UsageJson) =
        some (12345, 1,
          [Event.billing "M".data (totalDisp 12345) usdLit false]) ∧
      (12345 = 12345 ∧
        ∀ e ∈ [Event.billing "M".data (totalDisp 12345) usdLit false],
          ∃ cur, e = Event.billing "M".data (totalDisp 12345) cur false) := by
  have h : nonStreamBilling c10Cache "M".data 12345 0 (some c10UsageJson) =
      some (12345, 1, [Event.billing "M".data (totalDisp 12345) usdLit false]) := by
    have h1 : parseUsage c10UsageJson = some ⟨some 10, some 5, none⟩ := by
      with_unfolding_all decide
    have h2 : calculate_actual_cost (trimStr (strLower "M".data)) ⟨some 10, some 5, none⟩
        c10Cache = ((15 : ℚ) / 1000, usdLit) := by
      with_unfolding_all decide
    have h3 : f64ToU64 (((15 : ℚ) / 1000) * 100) = 1 := by with_unfolding_all decide
    unfold nonStreamBilling
    dsimp only
    rw [h1]
    dsimp only
    rw [h2, if_pos (by norm_num), h3]
  exact ⟨h, c10_nonstream_frame c10Cache "M".data 12345 0 (some c10UsageJson) 12345 1
    [Event.billing "M".data (totalDisp 12345) usdLit false] h⟩

end Sentinel
